import Mathlib

/-!
Shallow embedding of the GitHub-analysis GraphQL service (src/app.js) and
verification of its specification.

The embedding models:
* the tree-entry shape returned by the `getFileDetailsGrapqlQuery` query and
  the recursive `countBlobFiles` closure (count plus the mutable
  `fileTypePath` variable, threaded as explicit state);
* `fetchSingleRepositoryData` and the `fetchRepositoriesDetails` resolver with
  its pair-batched `runMultiplePromiseAllInLoop` consumption, over an abstract
  upstream (network calls become `Except`-valued oracle functions);
* the `listRepositories` resolver over the upstream's fixed 100-item page.

JavaScript runtime behaviour that matters here is made explicit: rejected
promises and thrown `TypeError`s are `Except.error`; `undefined` is `none`;
optional chaining (`?.`) short-circuits to `none`; `lastIndexOf`/`slice`
string arithmetic is reproduced including the `-1` not-found convention.
-/

set_option maxHeartbeats 1000000

namespace GithubAnalysis

/-- A file-tree entry as produced by `getFileDetailsGrapqlQuery` (src/app.js
lines 61-106): `name`, `type` (the upstream kind string, `"blob"` for files and
`"tree"` for directories), `path`, and the optionally expanded children
(`entry.object.entries`; `none` when the subtree was not expanded). -/
inductive TreeEntry : Type where
  | mk (name : String) (type : String) (path : String)
      (children : Option (List TreeEntry)) : TreeEntry

def TreeEntry.name : TreeEntry → String
  | .mk n _ _ _ => n

def TreeEntry.kind : TreeEntry → String
  | .mk _ t _ _ => t

def TreeEntry.path : TreeEntry → String
  | .mk _ _ p _ => p

/-- Helper for JS `String.prototype.lastIndexOf`: scan the characters left to right,
remembering the index of the latest occurrence (`-1` when absent). -/
def lastIndexOfAux (c : Char) : List Char → Nat → Int → Int
  | [], _, acc => acc
  | x :: xs, i, acc => lastIndexOfAux c xs (i + 1) (if x = c then Int.ofNat i else acc)

/-- JS `name.lastIndexOf(c)`: index of the last occurrence of `c`, `-1` when
absent (src/app.js line 179). -/
def jsLastIndexOf (s : String) (c : Char) : Int :=
  lastIndexOfAux c s.toList 0 (-1)

/-- JS `s.slice(i)` for a non-negative start index: drop the first `i`
characters (src/app.js line 180). -/
def jsSliceFrom (s : String) (i : Int) : String :=
  String.mk (s.toList.drop i.toNat)

/-- The "extension" the source computes for an entry name:
`entryName.slice(entryName.lastIndexOf(".") + 1)` (src/app.js lines 178-180).
When the name has no dot, `lastIndexOf` is `-1` and the slice starts at 0. -/
def extensionOf (name : String) : String :=
  jsSliceFrom name (jsLastIndexOf name '.' + 1)

/-- The conditional assignment `if (!fileTypePath) { fileTypePath = path }`
performed when an entry's extension matches: a JS string is falsy exactly when
it is empty (src/app.js lines 181-183). -/
def jsOrAssign (fileTypePath p : String) : String :=
  if fileTypePath = "" then p else fileTypePath

mutual
/-- Shallow embedding of the `countBlobFiles` closure (src/app.js lines
176-191).  The closure's captured variable `fileTypePath` is threaded as
explicit state; the function returns the blob count together with the updated
state.  Branches, in source order: a `"blob"` entry counts 1 and records its
path when its extension equals `fileType` and no path has been recorded yet;
a `"tree"` entry with expanded children recurses over them; a `"tree"` entry
without children, or an entry of any other type, counts 0. -/
def countBlobFiles (fileType : String) (entry : TreeEntry) (fileTypePath : String) :
    Nat × String :=
  match entry with
  | .mk name ty path children =>
    if ty = "blob" then
      (1, if extensionOf name = fileType then jsOrAssign fileTypePath path else fileTypePath)
    else if ty = "tree" then
      match children with
      | some entries => countBlobFilesList fileType entries fileTypePath
      | none => (0, fileTypePath)
    else (0, fileTypePath)

/-- The `entries.reduce((sum, e) => sum + countBlobFiles(e), 0)` fold
(src/app.js lines 186 and 193), threading the closure state left to right. -/
def countBlobFilesList (fileType : String) (entries : List TreeEntry) (fileTypePath : String) :
    Nat × String :=
  match entries with
  | [] => (0, fileTypePath)
  | e :: rest =>
    let r := countBlobFiles fileType e fileTypePath
    let r2 := countBlobFilesList fileType rest r.2
    (r.1 + r2.1, r2.2)
end

mutual
/-- Spec §4.2 `countFiles`, per-entry form: 1 for every file entry, the
recursive count over expanded children for a directory entry that carries
them, 0 for a directory entry without expanded children.  (Entries of a kind
outside the spec's file/directory enum contribute 0.) -/
def countFilesEntry : TreeEntry → Nat
  | .mk _ ty _ children =>
    if ty = "blob" then 1
    else if ty = "tree" then
      match children with
      | some entries => countFiles entries
      | none => 0
    else 0

/-- Spec §4.2 `countFiles(entries)`: the sum of the per-entry counts over an
ordered sequence of tree entries. -/
def countFiles : List TreeEntry → Nat
  | [] => 0
  | e :: rest => countFilesEntry e + countFiles rest
end

mutual
/-- The paths of the file entries matching `fileType`, in depth-first
pre-order, per-entry form. -/
def matchPathsEntry (fileType : String) : TreeEntry → List String
  | .mk name ty path children =>
    if ty = "blob" then (if extensionOf name = fileType then [path] else [])
    else if ty = "tree" then
      match children with
      | some entries => matchPathsList fileType entries
      | none => []
    else []

/-- The paths of the file entries matching `fileType`, in depth-first
pre-order, over a sequence of entries. -/
def matchPathsList (fileType : String) : List TreeEntry → List String
  | [] => []
  | e :: rest => matchPathsEntry fileType e ++ matchPathsList fileType rest
end

mutual
/-- Spec §4.2 `findFirstPathOfType`, per-entry form: the path of the first
file entry (depth-first, pre-order) whose extension equals `fileType`
case-sensitively, or `none`. -/
def firstPathEntry (fileType : String) : TreeEntry → Option String
  | .mk name ty path children =>
    if ty = "blob" then (if extensionOf name = fileType then some path else none)
    else if ty = "tree" then
      match children with
      | some entries => firstPathList fileType entries
      | none => none
    else none

/-- Spec §4.2 `findFirstPathOfType`, sequence form. -/
def firstPathList (fileType : String) : List TreeEntry → Option String
  | [] => none
  | e :: rest =>
    match firstPathEntry fileType e with
    | some p => some p
    | none => firstPathList fileType rest
end

/-- Spec §4.2 `findFirstPathOfType(entries, fileType)`: depth-first pre-order
traversal; the path of the first file entry whose extension (substring after
the last dot in its name) equals `fileType`, case-sensitively; absent when no
file matches. -/
def findFirstPathOfType (entries : List TreeEntry) (fileType : String) : Option String :=
  firstPathList fileType entries

/-- A JS failure observable from the resolver: a rejected upstream promise
(carrying an opaque message) or a `TypeError` raised by a property access on
`null`/`undefined`. -/
inductive JsError : Type where
  | typeError : JsError
  | upstreamError (msg : String) : JsError
deriving DecidableEq, Repr

/-- Repository metadata selected by `getFileDetailsGrapqlQuery` (src/app.js
lines 84-90): `id`, `name`, `owner.login`, `diskUsage`, `visibility`. -/
structure RepoMeta : Type where
  id : String
  name : String
  ownerLogin : String
  diskUsage : Int
  visibility : String
deriving DecidableEq, Repr

/-- The non-null `repository` part of a tree-fetch response.  `object` models
`repository.object` (the `master:` root): `none` when the object is null (for
example because the repository does not use the `master` branch), and for a
non-null object the inner option models whether the `entries` field is present
(absent when the object is not a `Tree`). -/
structure RepoData : Type where
  meta : RepoMeta
  object : Option (Option (List TreeEntry))

/-- A tree-fetch response (`response.data.viewer`): the `repository` field is
null when no repository of the requested name exists. -/
structure TreeResponse : Type where
  repository : Option RepoData

/-- A content-fetch response (`data.viewer` of
`getContentForSpecificFileGraphqlQuery`).  Outer option: `repository` null;
middle option: `object` null; inner option: the `text` field, absent when the
object is not a `Blob`. -/
structure ContentResponse : Type where
  repository : Option (Option (Option String))
deriving DecidableEq, Repr

/-- The upstream GitHub endpoints as oracle functions, parametrised by the
webhook payload type `W` (the hooks endpoint's JSON is an unvalidated
passthrough).  Each call either resolves (`Except.ok`) or rejects
(`Except.error`). -/
structure Upstream (W : Type) : Type where
  fetchTree : String → Except JsError TreeResponse
  fetchWebhooks : String → String → Except JsError W
  fetchContent : String → String → Except JsError ContentResponse

/-- The computation on src/app.js line 193:
`response.data.viewer.repository.object?.entries.reduce(...)`.
A null `object` short-circuits the optional chain, so `numberOfFiles` becomes
`undefined` (`none`) without error; a non-null `object` without `entries`
makes `.reduce` a property access on `undefined`, a `TypeError`; otherwise the
`countBlobFiles` fold runs with `fileTypePath` starting empty. -/
def analyzeTree (fileType : String) :
    Option (Option (List TreeEntry)) → Except JsError (Option Nat × String)
  | none => Except.ok (none, "")
  | some none => Except.error JsError.typeError
  | some (some entries) =>
    let r := countBlobFilesList fileType entries ""
    Except.ok (some r.1, r.2)

/-- The access on src/app.js line 197:
`(...)?.data.viewer.repository.object?.text`.  A null `repository` makes
`.object` a property access on `null` (`TypeError`); a null `object`
short-circuits to `undefined`; otherwise the (possibly absent) `text` field is
read. -/
def readContent : ContentResponse → Except JsError (Option String)
  | ⟨none⟩ => Except.error JsError.typeError
  | ⟨some none⟩ => Except.ok none
  | ⟨some (some t)⟩ => Except.ok t

/-- The values attached to the response object by `fetchSingleRepositoryData`
and consumed by the resolver: the repository metadata
(`response.data.viewer.repository`), `numberOfFiles`, `activeWebhooks` and
`contentOfSpecificFile`. -/
structure SingleRepoResult (W : Type) : Type where
  repoMeta : RepoMeta
  numberOfFiles : Option Nat
  activeWebhooks : W
  contentOfSpecificFile : Option String
deriving DecidableEq, Repr

/-- Shallow embedding of `GitHubAPI.fetchSingleRepositoryData` (src/app.js
lines 169-200): fetch the tree (a null `repository` makes line 193's
`.object` access throw), compute `numberOfFiles` and `fileTypePath`, fetch
the webhooks with the caller-supplied `owner` and the requested `repoName`,
then fetch the content at `fileTypePath`. -/
def fetchSingleRepositoryData {W : Type} (up : Upstream W)
    (repoName fileType owner : String) : Except JsError (SingleRepoResult W) := do
  let response ← up.fetchTree repoName
  match response.repository with
  | none => Except.error JsError.typeError
  | some repo => do
    let counted ← analyzeTree fileType repo.object
    let hooks ← up.fetchWebhooks owner repoName
    let contentResp ← up.fetchContent repoName counted.2
    let content ← readContent contentResp
    Except.ok ⟨repo.meta, counted.1, hooks, content⟩

/-- Awaiting one slot of `Promise.all([promises[i], promises[i + 1]])`: an
out-of-range index yields `undefined` (`none`), which `Promise.all` passes
through as a resolved value; a rejected promise rejects the pair. -/
def awaitSlot {α : Type} : Option (Except JsError α) → Except JsError (Option α)
  | none => Except.ok none
  | some (Except.ok a) => Except.ok (some a)
  | some (Except.error e) => Except.error e

/-- Shallow embedding of `runMultiplePromiseAllInLoop` (src/app.js lines
216-222): the `for (let i = 0; i < promises.length; i += 2)` loop awaiting
`Promise.all([promises[i], promises[i + 1]])`, two list elements per
iteration; when the length is odd the final `promises[i + 1]` is `undefined`
and resolves to `undefined`. -/
def runMultiplePromiseAllInLoop {α : Type} :
    List (Except JsError α) → Except JsError (List (Option α × Option α))
  | [] => Except.ok []
  | [p] => do
    let a ← awaitSlot (some p)
    let b ← awaitSlot none
    Except.ok [(a, b)]
  | p :: q :: rest => do
    let a ← awaitSlot (some p)
    let b ← awaitSlot (some q)
    let tail ← runMultiplePromiseAllInLoop rest
    Except.ok ((a, b) :: tail)

/-- One record of the resolver's output (src/app.js lines 234-242). -/
structure RepositoryDetails (W : Type) : Type where
  name : String
  visibility : String
  size : Int
  owner : String
  numberOfFiles : Option Nat
  fileContent : Option String
  activeWebhooks : W
deriving DecidableEq, Repr

/-- The record assembly inside the resolver's final `.map` (src/app.js lines
233-242): fields taken from the tree metadata plus the three computed
values. -/
def detailsOfResult {W : Type} (r : SingleRepoResult W) : RepositoryDetails W :=
  { name := r.repoMeta.name
    visibility := r.repoMeta.visibility
    size := r.repoMeta.diskUsage
    owner := r.repoMeta.ownerLogin
    numberOfFiles := r.numberOfFiles
    fileContent := r.contentOfSpecificFile
    activeWebhooks := r.activeWebhooks }

/-- Shallow embedding of the `fetchRepositoriesDetails` resolver (src/app.js
lines 215-245): start one `fetchSingleRepositoryData` chain per requested
name, consume the chains in fixed pairs, `.flat()` the pair list, drop falsy
(`undefined`) slots with `.filter(data => data)`, and map the survivors to
output records. -/
def fetchRepositoriesDetails {W : Type} (up : Upstream W) (repoNames : List String)
    (fileType owner : String) : Except JsError (List (RepositoryDetails W)) := do
  let promises := repoNames.map (fun n => fetchSingleRepositoryData up n fileType owner)
  let settled ← runMultiplePromiseAllInLoop promises
  let flat := settled.flatMap (fun pr => [pr.1, pr.2])
  Except.ok ((flat.filterMap id).map detailsOfResult)

/-- One node of the repository-listing query (src/app.js lines 154-161):
`name`, `diskUsage`, `owner.login`. -/
structure RepoNode : Type where
  name : String
  diskUsage : Int
  ownerLogin : String
deriving DecidableEq, Repr

/-- One record of the `listRepositories` resolver output (src/app.js lines
208-212). -/
structure RepositorySummary : Type where
  name : String
  owner : String
  size : Int
deriving DecidableEq, Repr

/-- Modelled from the spec: the upstream GraphQL endpoint's
`repositories(last: 100)` page (src/app.js line 154) — the fixed page of at
most 100 of the viewer's repositories, the final 100 in the upstream's own
order when more exist.  The endpoint itself is external and not part of
src. -/
def repositoriesPage (viewerRepos : List RepoNode) : List RepoNode :=
  viewerRepos.drop (viewerRepos.length - 100)

/-- The `listRepositories` resolver (src/app.js lines 205-214): map each node
of the fetched page to `{name, owner: owner.login, size: diskUsage}`. -/
def listRepositories (viewerRepos : List RepoNode) : List RepositorySummary :=
  (repositoriesPage viewerRepos).map (fun d => ⟨d.name, d.ownerLogin, d.diskUsage⟩)

/-- The pair grouping performed by the `i += 2` loop: element `i` and element
`i + 1` of the promise list, the second slot `none` when the length is odd. -/
def pairChunks {α : Type} : List α → List (Option α × Option α)
  | [] => []
  | [v] => [(some v, none)]
  | v :: w :: rest => (some v, some w) :: pairChunks rest

mutual
/-- All file entries reachable through expanded children, at every nesting
depth present in the input — per-entry form. -/
def allBlobsEntry : TreeEntry → List TreeEntry
  | .mk name ty path children =>
    if ty = "blob" then [.mk name ty path children]
    else if ty = "tree" then
      match children with
      | some entries => allBlobsList entries
      | none => []
    else []

/-- All file entries reachable through expanded children — sequence form. -/
def allBlobsList : List TreeEntry → List TreeEntry
  | [] => []
  | e :: rest => allBlobsEntry e ++ allBlobsList rest
end

/-- A chain of `d` nested directory entries, each carrying exactly one
expanded child, with `e` at the bottom: exercises traversal at depth `d`. -/
def deepDir : Nat → TreeEntry → TreeEntry
  | 0, e => e
  | d + 1, e => .mk "dir" "tree" "dir" (some [deepDir d e])

mutual
/-- Two entries have the same shape up to reordering: equal kind strings and
shape-equivalent children (names and paths are unconstrained). -/
inductive EntryShapeEq : TreeEntry → TreeEntry → Prop where
  | mk : ∀ (n₁ n₂ ty p₁ p₂ : String) (c₁ c₂ : Option (List TreeEntry)),
      ChildrenShapeEq c₁ c₂ → EntryShapeEq (.mk n₁ ty p₁ c₁) (.mk n₂ ty p₂ c₂)

/-- Shape equivalence lifted to the optional children field. -/
inductive ChildrenShapeEq : Option (List TreeEntry) → Option (List TreeEntry) → Prop where
  | none : ChildrenShapeEq none none
  | some : ∀ l₁ l₂, EntriesShapeEq l₁ l₂ → ChildrenShapeEq (some l₁) (some l₂)

/-- Entry sequences related by a permutation, applied at any level: pointwise
shape equivalence, adjacent transposition, and transitive closure. -/
inductive EntriesShapeEq : List TreeEntry → List TreeEntry → Prop where
  | nil : EntriesShapeEq [] []
  | cons : ∀ e₁ e₂ l₁ l₂, EntryShapeEq e₁ e₂ → EntriesShapeEq l₁ l₂ →
      EntriesShapeEq (e₁ :: l₁) (e₂ :: l₂)
  | swap : ∀ e₁ e₂ l, EntriesShapeEq (e₁ :: e₂ :: l) (e₂ :: e₁ :: l)
  | trans : ∀ l₁ l₂ l₃, EntriesShapeEq l₁ l₂ → EntriesShapeEq l₂ l₃ →
      EntriesShapeEq l₁ l₃
end

/-! ### Concrete fixtures used by witnesses and counterexamples -/

/-- A small two-level tree: a yml file at the root and a txt file inside an
expanded directory. -/
def mockTreeEntries : List TreeEntry :=
  [.mk "a.yml" "blob" "a.yml" none,
   .mk "src" "tree" "src" (some [.mk "b.txt" "blob" "src/b.txt" none])]

/-- Metadata of a mock repository named `n`, owned by `treeOwner`. -/
def mockMeta (n : String) : RepoMeta :=
  ⟨"id-" ++ n, n, "treeOwner", 7, "public"⟩

/-- A well-behaved mock upstream: every tree fetch succeeds with
`mockTreeEntries`, the webhooks payload records the owner/name pair the hooks
endpoint was called with, and content fetches record the requested path. -/
def mockUp : Upstream String where
  fetchTree := fun n => Except.ok ⟨some ⟨mockMeta n, some (some mockTreeEntries)⟩⟩
  fetchWebhooks := fun o n => Except.ok (o ++ "|" ++ n)
  fetchContent := fun _ p => Except.ok ⟨some (some (some ("content:" ++ p)))⟩

/-- A mock upstream whose tree fetch rejects for the repository named `bad`
and behaves like `mockUp` otherwise. -/
def failUp : Upstream String where
  fetchTree := fun n =>
    if n = "bad" then Except.error (JsError.upstreamError "boom")
    else Except.ok ⟨some ⟨mockMeta n, some (some mockTreeEntries)⟩⟩
  fetchWebhooks := fun o n => Except.ok (o ++ "|" ++ n)
  fetchContent := fun _ p => Except.ok ⟨some (some (some ("content:" ++ p)))⟩

/-- A mock upstream exercising the absent-field shapes of the tree response:
`norepo` has a null repository, `noentries` a non-null root object without
entries, and every other name a null root object (the non-`master`-branch
case). -/
def absentUp : Upstream String where
  fetchTree := fun n =>
    if n = "norepo" then Except.ok ⟨none⟩
    else if n = "noentries" then Except.ok ⟨some ⟨mockMeta n, some none⟩⟩
    else Except.ok ⟨some ⟨mockMeta n, none⟩⟩
  fetchWebhooks := fun o n => Except.ok (o ++ "|" ++ n)
  fetchContent := fun _ _ => Except.ok ⟨some (some none)⟩

/-- Two root-level yml files, the first with an empty `path`: the input on
which the recorded path differs from the first pre-order match. -/
def emptyPathEntries : List TreeEntry :=
  [.mk "a.yml" "blob" "" none, .mk "b.yml" "blob" "p2" none]

/-- The list `mockTreeEntries` with its two root entries transposed. -/
def swappedEntries : List TreeEntry :=
  [.mk "src" "tree" "src" (some [.mk "b.txt" "blob" "src/b.txt" none]),
   .mk "a.yml" "blob" "a.yml" none]

/-- The records `fetchRepositoriesDetails mockUp ["r1", "r2"] "yml"
"callerOwner"` assembles: the owner field carries the tree-discovered
`treeOwner` while the webhooks payload was fetched for `callerOwner`. -/
def wres : List (RepositoryDetails String) :=
  [⟨"r1", "public", 7, "treeOwner", some 2, some "content:a.yml", "callerOwner|r1"⟩,
   ⟨"r2", "public", 7, "treeOwner", some 2, some "content:a.yml", "callerOwner|r2"⟩]

/-! ### Characterisation of the `countBlobFiles` closure -/

theorem countBlobFilesList_eq (ft : String) :
    ∀ (es : List TreeEntry) (s : String),
      countBlobFilesList ft es s =
        (countFiles es, List.foldl jsOrAssign s (matchPathsList ft es)) := by
  have case1 : ∀ (s name path : String) (children : Option (List TreeEntry)),
      countBlobFiles ft (.mk name "blob" path children) s =
        (countFilesEntry (.mk name "blob" path children),
         List.foldl jsOrAssign s (matchPathsEntry ft (.mk name "blob" path children))) := by
    intro s name path children
    cases children with
    | none =>
      rw [countBlobFiles.eq_2, countFilesEntry.eq_2, matchPathsEntry.eq_2]
      by_cases h : extensionOf name = ft <;> simp [h]
    | some entries =>
      rw [countBlobFiles.eq_1, countFilesEntry.eq_1, matchPathsEntry.eq_1]
      by_cases h : extensionOf name = ft <;> simp [h]
  have case2 : ∀ (s name path : String) (entries : List TreeEntry), ¬"tree" = "blob" →
      (countBlobFilesList ft entries s =
        (countFiles entries, List.foldl jsOrAssign s (matchPathsList ft entries))) →
      countBlobFiles ft (.mk name "tree" path (some entries)) s =
        (countFilesEntry (.mk name "tree" path (some entries)),
         List.foldl jsOrAssign s (matchPathsEntry ft (.mk name "tree" path (some entries)))) := by
    intro s name path entries _ ih
    rw [countBlobFiles.eq_1, countFilesEntry.eq_1, matchPathsEntry.eq_1]
    simpa using ih
  have case3 : ∀ (s name path : String), ¬"tree" = "blob" →
      countBlobFiles ft (.mk name "tree" path none) s =
        (countFilesEntry (.mk name "tree" path none),
         List.foldl jsOrAssign s (matchPathsEntry ft (.mk name "tree" path none))) := by
    intro s name path _
    rw [countBlobFiles.eq_2, countFilesEntry.eq_2, matchPathsEntry.eq_2]
    simp
  have case4 : ∀ (s name ty path : String) (children : Option (List TreeEntry)),
      ¬ty = "blob" → ¬ty = "tree" →
      countBlobFiles ft (.mk name ty path children) s =
        (countFilesEntry (.mk name ty path children),
         List.foldl jsOrAssign s (matchPathsEntry ft (.mk name ty path children))) := by
    intro s name ty path children hb ht
    cases children with
    | none =>
      rw [countBlobFiles.eq_2, countFilesEntry.eq_2, matchPathsEntry.eq_2]
      simp [hb, ht]
    | some entries =>
      rw [countBlobFiles.eq_1, countFilesEntry.eq_1, matchPathsEntry.eq_1]
      simp [hb, ht]
  have case5 : ∀ s : String,
      countBlobFilesList ft [] s =
        (countFiles [], List.foldl jsOrAssign s (matchPathsList ft [])) := by
    intro s
    rw [countBlobFilesList.eq_1, countFiles.eq_1, matchPathsList.eq_1]
    simp
  have case6 : ∀ (s : String) (e : TreeEntry) (rest : List TreeEntry),
      (countBlobFiles ft e s =
        (countFilesEntry e, List.foldl jsOrAssign s (matchPathsEntry ft e))) →
      (countBlobFilesList ft rest (countBlobFiles ft e s).2 =
        (countFiles rest,
         List.foldl jsOrAssign (countBlobFiles ft e s).2 (matchPathsList ft rest))) →
      countBlobFilesList ft (e :: rest) s =
        (countFiles (e :: rest), List.foldl jsOrAssign s (matchPathsList ft (e :: rest))) := by
    intro s e rest ih1 ih2
    rw [countBlobFilesList.eq_2, countFiles.eq_2, matchPathsList.eq_2]
    rw [ih1] at ih2 ⊢
    rw [ih2]
    simp [List.foldl_append]
  exact countBlobFilesList.induct ft
    (fun e s => countBlobFiles ft e s =
      (countFilesEntry e, List.foldl jsOrAssign s (matchPathsEntry ft e)))
    (fun es s => countBlobFilesList ft es s =
      (countFiles es, List.foldl jsOrAssign s (matchPathsList ft es)))
    (fun s name path children => case1 s name path children)
    (fun s name path entries hne ih => case2 s name path entries hne ih)
    (fun s name path hne => case3 s name path hne)
    (fun s name ty path children hb ht => case4 s name ty path children hb ht)
    case5
    (fun s e rest ih1 ih2 => case6 s e rest ih1 ih2)

theorem countBlobFiles_eq (ft : String) (e : TreeEntry) (s : String) :
    countBlobFiles ft e s =
      (countFilesEntry e, List.foldl jsOrAssign s (matchPathsEntry ft e)) := by
  have h := countBlobFilesList_eq ft [e] s
  simp only [countBlobFilesList, countFiles, matchPathsList, List.append_nil,
    Nat.add_zero] at h
  exact h

/-- The count component never depends on the requested file type or on the
state of the `fileTypePath` closure variable. -/
theorem countBlobFilesList_fst (ft : String) (es : List TreeEntry) (s : String) :
    (countBlobFilesList ft es s).1 = countFiles es := by
  rw [countBlobFilesList_eq]

/-! ### Characterisation of the recorded `fileTypePath` -/

theorem foldl_jsOrAssign_of_ne (s : String) (hs : s ≠ "") :
    ∀ l : List String, List.foldl jsOrAssign s l = s := by
  intro l
  induction l with
  | nil => rfl
  | cons p rest ih => simpa [jsOrAssign, hs] using ih

theorem foldl_jsOrAssign_empty (l : List String) (h : ∀ p ∈ l, p ≠ "") :
    List.foldl jsOrAssign "" l = l.headD "" := by
  cases l with
  | nil => rfl
  | cons p rest =>
    have hp : p ≠ "" := h p (List.mem_cons_self p rest)
    simp only [List.foldl_cons, jsOrAssign, if_pos rfl, List.headD_cons]
    exact foldl_jsOrAssign_of_ne p hp rest

theorem firstPathList_eq_head (ft : String) :
    ∀ es : List TreeEntry, firstPathList ft es = (matchPathsList ft es).head? := by
  have case1 : ∀ (name path : String) (children : Option (List TreeEntry)),
      extensionOf name = ft →
      firstPathEntry ft (.mk name "blob" path children) =
        (matchPathsEntry ft (.mk name "blob" path children)).head? := by
    intro name path children h
    cases children with
    | none => rw [firstPathEntry.eq_2, matchPathsEntry.eq_2]; simp [h]
    | some entries => rw [firstPathEntry.eq_1, matchPathsEntry.eq_1]; simp [h]
  have case2 : ∀ (name path : String) (children : Option (List TreeEntry)),
      ¬extensionOf name = ft →
      firstPathEntry ft (.mk name "blob" path children) =
        (matchPathsEntry ft (.mk name "blob" path children)).head? := by
    intro name path children h
    cases children with
    | none => rw [firstPathEntry.eq_2, matchPathsEntry.eq_2]; simp [h]
    | some entries => rw [firstPathEntry.eq_1, matchPathsEntry.eq_1]; simp [h]
  have case3 : ∀ (name path : String) (entries : List TreeEntry), ¬"tree" = "blob" →
      (firstPathList ft entries = (matchPathsList ft entries).head?) →
      firstPathEntry ft (.mk name "tree" path (some entries)) =
        (matchPathsEntry ft (.mk name "tree" path (some entries))).head? := by
    intro name path entries _ ih
    rw [firstPathEntry.eq_1, matchPathsEntry.eq_1]
    simpa using ih
  have case4 : ∀ (name path : String), ¬"tree" = "blob" →
      firstPathEntry ft (.mk name "tree" path none) =
        (matchPathsEntry ft (.mk name "tree" path none)).head? := by
    intro name path _
    rw [firstPathEntry.eq_2, matchPathsEntry.eq_2]
    simp
  have case5 : ∀ (name ty path : String) (children : Option (List TreeEntry)),
      ¬ty = "blob" → ¬ty = "tree" →
      firstPathEntry ft (.mk name ty path children) =
        (matchPathsEntry ft (.mk name ty path children)).head? := by
    intro name ty path children hb ht
    cases children with
    | none => rw [firstPathEntry.eq_2, matchPathsEntry.eq_2]; simp [hb, ht]
    | some entries => rw [firstPathEntry.eq_1, matchPathsEntry.eq_1]; simp [hb, ht]
  have case6 : firstPathList ft [] = (matchPathsList ft []).head? := by
    rw [firstPathList.eq_1, matchPathsList.eq_1]
    simp
  have case7 : ∀ (e : TreeEntry) (rest : List TreeEntry) (p : String),
      firstPathEntry ft e = some p →
      (firstPathEntry ft e = (matchPathsEntry ft e).head?) →
      firstPathList ft (e :: rest) = (matchPathsList ft (e :: rest)).head? := by
    intro e rest p hp ih
    rw [firstPathList.eq_2, matchPathsList.eq_2, hp]
    rw [hp] at ih
    cases hm : matchPathsEntry ft e with
    | nil => rw [hm] at ih; simp at ih
    | cons q qs =>
      rw [hm] at ih
      simp only [List.head?_cons] at ih
      simp [ih]
  have case8 : ∀ (e : TreeEntry) (rest : List TreeEntry),
      firstPathEntry ft e = none →
      (firstPathEntry ft e = (matchPathsEntry ft e).head?) →
      (firstPathList ft rest = (matchPathsList ft rest).head?) →
      firstPathList ft (e :: rest) = (matchPathsList ft (e :: rest)).head? := by
    intro e rest he ihe ih2
    rw [firstPathList.eq_2, matchPathsList.eq_2, he]
    rw [he] at ihe
    cases hm : matchPathsEntry ft e with
    | nil => simpa [hm] using ih2
    | cons q qs => rw [hm] at ihe; simp at ihe
  exact firstPathList.induct ft
    (fun e => firstPathEntry ft e = (matchPathsEntry ft e).head?)
    (fun es => firstPathList ft es = (matchPathsList ft es).head?)
    (fun name path children h => case1 name path children h)
    (fun name path children h => case2 name path children h)
    (fun name path entries hne ih => case3 name path entries hne ih)
    (fun name path hne => case4 name path hne)
    (fun name ty path children hb ht => case5 name ty path children hb ht)
    case6
    (fun e rest p hp ih => case7 e rest p hp ih)
    (fun e rest he ih ih2 => case8 e rest he ih ih2)

/-- Under non-empty matching paths, the path recorded by the closure starting
from the empty state is the first pre-order match (or `""` when none). -/
theorem recordedPath_eq_firstPath (ft : String) (es : List TreeEntry)
    (h : ∀ p ∈ matchPathsList ft es, p ≠ "") :
    (countBlobFilesList ft es "").2 = (findFirstPathOfType es ft).getD "" := by
  rw [countBlobFilesList_eq]
  simp only [findFirstPathOfType, firstPathList_eq_head]
  rw [foldl_jsOrAssign_empty _ h]
  cases matchPathsList ft es <;> simp

/-! ### Behaviour of the pair-batched await loop -/

theorem runMultiplePromiseAllInLoop_map_ok {α : Type} (vs : List α) :
    runMultiplePromiseAllInLoop (vs.map Except.ok) = Except.ok (pairChunks vs) := by
  induction vs using pairChunks.induct with
  | case1 => rfl
  | case2 v => rfl
  | case3 v w rest ih =>
    simp only [List.map_cons, runMultiplePromiseAllInLoop, awaitSlot, Bind.bind,
      Except.bind, ih, pairChunks]

theorem pairChunks_flat_filter {α : Type} (vs : List α) :
    ((pairChunks vs).flatMap (fun pr => [pr.1, pr.2])).filterMap id = vs := by
  induction vs using pairChunks.induct with
  | case1 => rfl
  | case2 v => rfl
  | case3 v w rest ih => simp [pairChunks, ih]

theorem runMultiplePromiseAllInLoop_error {α : Type} (e : JsError) :
    ∀ ps : List (Except JsError α), Except.error e ∈ ps →
      (∀ e', Except.error e' ∈ ps → e' = e) →
      runMultiplePromiseAllInLoop ps = Except.error e := by
  intro ps
  induction ps using pairChunks.induct with
  | case1 => intro h1 _; simp at h1
  | case2 p =>
    intro h1 _
    have hp : Except.error e = p := by simpa using h1
    subst hp
    rfl
  | case3 p q rest ih =>
    intro h1 h2
    cases p with
    | error e1 =>
      have : e1 = e := h2 e1 (List.mem_cons_self _ _)
      subst this
      rfl
    | ok a =>
      cases q with
      | error e2 =>
        have : e2 = e := h2 e2 (List.mem_cons_of_mem _ (List.mem_cons_self _ _))
        subst this
        rfl
      | ok b =>
        have h1' : Except.error e ∈ rest := by
          simpa using h1
        have h2' : ∀ e', Except.error e' ∈ rest → e' = e := by
          intro e' he'
          exact h2 e' (List.mem_cons_of_mem _ (List.mem_cons_of_mem _ he'))
        simp only [runMultiplePromiseAllInLoop, awaitSlot, Bind.bind, Except.bind,
          ih h1' h2']

theorem runMultiplePromiseAllInLoop_ok_inv {α : Type} :
    ∀ (ps : List (Except JsError α)) (pairs : List (Option α × Option α)),
      runMultiplePromiseAllInLoop ps = Except.ok pairs →
      ∃ vs : List α, ps = vs.map Except.ok ∧
        ((pairs.flatMap fun pr => [pr.1, pr.2]).filterMap id) = vs := by
  intro ps
  induction ps using pairChunks.induct with
  | case1 =>
    intro pairs h
    refine ⟨[], by simp, ?_⟩
    simp only [runMultiplePromiseAllInLoop] at h
    cases h
    rfl
  | case2 p =>
    intro pairs h
    cases p with
    | error e =>
      simp only [runMultiplePromiseAllInLoop, awaitSlot, Bind.bind, Except.bind] at h
      exact Except.noConfusion h
    | ok a =>
      simp only [runMultiplePromiseAllInLoop, awaitSlot, Bind.bind, Except.bind] at h
      cases h
      exact ⟨[a], by simp, by simp⟩
  | case3 p q rest ih =>
    intro pairs h
    cases p with
    | error e =>
      simp only [runMultiplePromiseAllInLoop, awaitSlot, Bind.bind, Except.bind] at h
      exact Except.noConfusion h
    | ok a =>
      cases q with
      | error e =>
        simp only [runMultiplePromiseAllInLoop, awaitSlot, Bind.bind, Except.bind] at h
        exact Except.noConfusion h
      | ok b =>
        simp only [runMultiplePromiseAllInLoop, awaitSlot, Bind.bind, Except.bind] at h
        cases hr : runMultiplePromiseAllInLoop rest with
        | error e => rw [hr] at h; simp at h
        | ok tailPairs =>
          rw [hr] at h
          simp only [] at h
          cases h
          obtain ⟨vs, hps, hflat⟩ := ih tailPairs hr
          refine ⟨a :: b :: vs, by simp [hps], ?_⟩
          simp [hflat]

/-! ### Behaviour of the single-repository assembly chain -/

theorem fetchSingleRepositoryData_ok {W : Type} (up : Upstream W)
    (n ft o : String) (resp : TreeResponse) (repo : RepoData)
    (cnt : Option Nat × String) (hooks : W) (cresp : ContentResponse)
    (content : Option String)
    (h1 : up.fetchTree n = Except.ok resp) (h2 : resp.repository = some repo)
    (h3 : analyzeTree ft repo.object = Except.ok cnt)
    (h4 : up.fetchWebhooks o n = Except.ok hooks)
    (h5 : up.fetchContent n cnt.2 = Except.ok cresp)
    (h6 : readContent cresp = Except.ok content) :
    fetchSingleRepositoryData up n ft o =
      Except.ok ⟨repo.meta, cnt.1, hooks, content⟩ := by
  unfold fetchSingleRepositoryData
  rw [h1]
  simp only [Bind.bind, Except.bind, h2, h3, h4, h5, h6]

theorem fetchSingleRepositoryData_ok_inv {W : Type} (up : Upstream W)
    (n ft o : String) (r : SingleRepoResult W)
    (h : fetchSingleRepositoryData up n ft o = Except.ok r) :
    ∃ resp repo, up.fetchTree n = Except.ok resp ∧ resp.repository = some repo ∧
      r.repoMeta = repo.meta ∧ up.fetchWebhooks o n = Except.ok r.activeWebhooks := by
  unfold fetchSingleRepositoryData at h
  simp only [Bind.bind, Except.bind] at h
  split at h
  · exact Except.noConfusion h
  · rename_i resp htree
    split at h
    · exact Except.noConfusion h
    · rename_i repo hrep
      split at h
      · exact Except.noConfusion h
      · rename_i cnt hana
        split at h
        · exact Except.noConfusion h
        · rename_i hooks hw
          split at h
          · exact Except.noConfusion h
          · rename_i cresp hc
            split at h
            · exact Except.noConfusion h
            · rename_i content hrc
              cases h
              exact ⟨resp, repo, htree, hrep, rfl, hw⟩

/-! ### Counting lemmas for the tree analyser -/

theorem countFiles_eq_allBlobs_length :
    ∀ es : List TreeEntry, countFiles es = (allBlobsList es).length := by
  have case1 : ∀ (name path : String) (children : Option (List TreeEntry)),
      countFilesEntry (.mk name "blob" path children) =
        (allBlobsEntry (.mk name "blob" path children)).length := by
    intro name path children
    cases children with
    | none => rw [countFilesEntry.eq_2, allBlobsEntry.eq_2]; simp
    | some entries => rw [countFilesEntry.eq_1, allBlobsEntry.eq_1]; simp
  have case2 : ∀ (name path : String) (entries : List TreeEntry), ¬"tree" = "blob" →
      (countFiles entries = (allBlobsList entries).length) →
      countFilesEntry (.mk name "tree" path (some entries)) =
        (allBlobsEntry (.mk name "tree" path (some entries))).length := by
    intro name path entries _ ih
    rw [countFilesEntry.eq_1, allBlobsEntry.eq_1]
    simpa using ih
  have case3 : ∀ (name path : String), ¬"tree" = "blob" →
      countFilesEntry (.mk name "tree" path none) =
        (allBlobsEntry (.mk name "tree" path none)).length := by
    intro name path _
    rw [countFilesEntry.eq_2, allBlobsEntry.eq_2]
    simp
  have case4 : ∀ (name ty path : String) (children : Option (List TreeEntry)),
      ¬ty = "blob" → ¬ty = "tree" →
      countFilesEntry (.mk name ty path children) =
        (allBlobsEntry (.mk name ty path children)).length := by
    intro name ty path children hb ht
    cases children with
    | none => rw [countFilesEntry.eq_2, allBlobsEntry.eq_2]; simp [hb, ht]
    | some entries => rw [countFilesEntry.eq_1, allBlobsEntry.eq_1]; simp [hb, ht]
  have case5 : countFiles [] = (allBlobsList []).length := rfl
  have case6 : ∀ (e : TreeEntry) (rest : List TreeEntry),
      (countFilesEntry e = (allBlobsEntry e).length) →
      (countFiles rest = (allBlobsList rest).length) →
      countFiles (e :: rest) = (allBlobsList (e :: rest)).length := by
    intro e rest ih1 ih2
    rw [countFiles.eq_2, allBlobsList.eq_2, List.length_append, ih1, ih2]
  exact countFiles.induct
    (fun e => countFilesEntry e = (allBlobsEntry e).length)
    (fun es => countFiles es = (allBlobsList es).length)
    (fun name path children => case1 name path children)
    (fun name path entries hne ih => case2 name path entries hne ih)
    (fun name path hne => case3 name path hne)
    (fun name ty path children hb ht => case4 name ty path children hb ht)
    case5
    (fun e rest ih1 ih2 => case6 e rest ih1 ih2)

/-- The per-entry count depends only on the kind and the (recursive) shape of
the children, never on names, paths, or the order of sibling entries. -/
theorem countFiles_shapeEq :
    ∀ {l₁ l₂ : List TreeEntry}, EntriesShapeEq l₁ l₂ → countFiles l₁ = countFiles l₂ := by
  have caseMk : ∀ (n₁ n₂ ty p₁ p₂ : String) (c₁ c₂ : Option (List TreeEntry)),
      ChildrenShapeEq c₁ c₂ →
      (c₁.elim 0 countFiles = c₂.elim 0 countFiles) →
      countFilesEntry (.mk n₁ ty p₁ c₁) = countFilesEntry (.mk n₂ ty p₂ c₂) := by
    intro n₁ n₂ ty p₁ p₂ c₁ c₂ hc ih
    cases hc with
    | none => rw [countFilesEntry.eq_2, countFilesEntry.eq_2]
    | some l₁ l₂ _ =>
      have ih2 : countFiles l₁ = countFiles l₂ := by simpa using ih
      rw [countFilesEntry.eq_1, countFilesEntry.eq_1, ih2]
  have caseSome : ∀ l₁ l₂ : List TreeEntry, EntriesShapeEq l₁ l₂ →
      (countFiles l₁ = countFiles l₂) →
      Option.elim (some l₁) 0 countFiles = Option.elim (some l₂) 0 countFiles := by
    intro l₁ l₂ _ ih
    simpa using ih
  have caseCons : ∀ (e₁ e₂ : TreeEntry) (l₁ l₂ : List TreeEntry),
      (countFilesEntry e₁ = countFilesEntry e₂) →
      (countFiles l₁ = countFiles l₂) →
      countFiles (e₁ :: l₁) = countFiles (e₂ :: l₂) := by
    intro e₁ e₂ l₁ l₂ ih1 ih2
    rw [countFiles.eq_2, countFiles.eq_2, ih1, ih2]
  have caseSwap : ∀ (e₁ e₂ : TreeEntry) (l : List TreeEntry),
      countFiles (e₁ :: e₂ :: l) = countFiles (e₂ :: e₁ :: l) := by
    intro e₁ e₂ l
    rw [countFiles.eq_2, countFiles.eq_2, countFiles.eq_2, countFiles.eq_2]
    omega
  intro l₁ l₂ h
  exact @EntriesShapeEq.rec
    (fun e₁ e₂ _ => countFilesEntry e₁ = countFilesEntry e₂)
    (fun c₁ c₂ _ => c₁.elim 0 countFiles = c₂.elim 0 countFiles)
    (fun l₁ l₂ _ => countFiles l₁ = countFiles l₂)
    (fun n₁ n₂ ty p₁ p₂ c₁ c₂ hc ih => caseMk n₁ n₂ ty p₁ p₂ c₁ c₂ hc ih)
    rfl
    (fun l₁ l₂ hl ih => caseSome l₁ l₂ hl ih)
    rfl
    (fun e₁ e₂ l₁ l₂ _ _ ih1 ih2 => caseCons e₁ e₂ l₁ l₂ ih1 ih2)
    (fun e₁ e₂ l => caseSwap e₁ e₂ l)
    (fun l₁ l₂ l₃ _ _ ih1 ih2 => ih1.trans ih2)
    l₁ l₂ h

/-! ### Claim theorems -/

/-- C4: the file count computed by the source's `countBlobFiles` fold equals
the spec's recursive `countFiles` sum — 1 per file entry, the recursive count
over expanded children of a directory entry, 0 for a directory entry without
expanded children — independently of the requested file type and of the
`fileTypePath` closure state; on the empty sequence it is 0.  The result is a
`Nat`, hence non-negative, and both functions are pure, hence deterministic on
identical input. -/
theorem countBlobFiles_count_spec :
    (∀ (fileType fileTypePath : String) (entries : List TreeEntry),
      (countBlobFilesList fileType entries fileTypePath).1 = countFiles entries) ∧
    countFiles [] = 0 := by
  constructor
  · intro ft s es
    rw [countBlobFilesList_eq]
  · rfl

/-- C9: the file count is invariant under permutations of the entry sequence,
applied at any level of the tree (`EntriesShapeEq` closes sibling
transpositions under pointwise congruence, so a permutation inside any
directory's children is covered), and depends only on the kinds of the
entries and their children — names, paths, the requested file type and the
closure state are all irrelevant. -/
theorem count_invariant_under_permutation {es es' : List TreeEntry}
    (h : EntriesShapeEq es es') (ft ft' s s' : String) :
    (countBlobFilesList ft es s).1 = (countBlobFilesList ft' es' s').1 := by
  rw [countBlobFilesList_fst, countBlobFilesList_fst]
  exact countFiles_shapeEq h

/-- Witness for C9: transposing the two root entries of `mockTreeEntries`
(and changing the file type and closure state) leaves the count at 2. -/
theorem count_invariant_witness :
    (countBlobFilesList "yml" mockTreeEntries "").1 =
      (countBlobFilesList "other" swappedEntries "seed").1 ∧
    (countBlobFilesList "yml" mockTreeEntries "").1 = 2 :=
  ⟨count_invariant_under_permutation
      (EntriesShapeEq.swap (.mk "a.yml" "blob" "a.yml" none)
        (.mk "src" "tree" "src" (some [.mk "b.txt" "blob" "src/b.txt" none])) [])
      "yml" "other" "" "seed",
   by decide⟩

/-- C10: the traversal imposes no depth bound of its own.  First conjunct:
the count equals the number of file entries reachable through expanded
children at every nesting depth present in the input (the collector
`allBlobsList` recurses without any depth parameter).  Second and third
conjuncts: a single file nested below `d` expanded directories is counted and,
when its extension matches, its path is recorded — for every depth `d`.  Any
depth-two limitation comes from the shape of the upstream query, not from
this code. -/
theorem traversal_depth_unbounded :
    (∀ (fileType fileTypePath : String) (entries : List TreeEntry),
      (countBlobFilesList fileType entries fileTypePath).1 =
        (allBlobsList entries).length) ∧
    (∀ (d : Nat) (nm p fileType fileTypePath : String),
      (countBlobFilesList fileType [deepDir d (.mk nm "blob" p none)] fileTypePath).1 = 1) ∧
    (∀ (d : Nat) (nm p fileType : String), extensionOf nm = fileType →
      (countBlobFilesList fileType [deepDir d (.mk nm "blob" p none)] "").2 = p) := by
  have hcnt : ∀ (d : Nat) (nm p : String),
      countFilesEntry (deepDir d (.mk nm "blob" p none)) = 1 := by
    intro d nm p
    induction d with
    | zero => rw [deepDir, countFilesEntry.eq_2]; simp
    | succ d ih =>
      rw [deepDir, countFilesEntry.eq_1]
      simp only [countFiles.eq_2, countFiles.eq_1, ih]
      simp
  have hmp : ∀ (d : Nat) (nm p ft : String), extensionOf nm = ft →
      matchPathsEntry ft (deepDir d (.mk nm "blob" p none)) = [p] := by
    intro d nm p ft hm
    induction d with
    | zero => rw [deepDir, matchPathsEntry.eq_2]; simp [hm]
    | succ d ih =>
      rw [deepDir, matchPathsEntry.eq_1]
      simp only [matchPathsList.eq_2, matchPathsList.eq_1, ih]
      simp
  refine ⟨?_, ?_, ?_⟩
  · intro ft s es
    rw [countBlobFilesList_fst]
    exact countFiles_eq_allBlobs_length es
  · intro d nm p ft s
    rw [countBlobFilesList_fst]
    simp only [countFiles.eq_2, countFiles.eq_1, hcnt]
  · intro d nm p ft hm
    rw [countBlobFilesList_eq]
    simp only [matchPathsList.eq_2, matchPathsList.eq_1, hmp d nm p ft hm]
    simp [jsOrAssign]

/-- Witness for C10: a file five directories deep is counted and its path is
recorded. -/
theorem traversal_depth_witness :
    (countBlobFilesList "yml" [deepDir 5 (.mk "a.yml" "blob" "deep/a.yml" none)] "").1 = 1 ∧
    (countBlobFilesList "yml" [deepDir 5 (.mk "a.yml" "blob" "deep/a.yml" none)] "").2 =
      "deep/a.yml" :=
  ⟨traversal_depth_unbounded.2.1 5 "a.yml" "deep/a.yml" "yml" "",
   traversal_depth_unbounded.2.2 5 "a.yml" "deep/a.yml" "yml" (by decide)⟩

/-- C5 counterexample: on `emptyPathEntries` with file type `yml`, the first
pre-order matching file has path `""`, but the source records `"p2"` — the
path of the *second* match — because the falsy-check `!fileTypePath` cannot
distinguish "nothing recorded" from "recorded an empty path".  The selected
path therefore differs from the first pre-order match's path. -/
theorem recordedPath_counterexample :
    findFirstPathOfType emptyPathEntries "yml" = some "" ∧
    (countBlobFilesList "yml" emptyPathEntries "").2 = "p2" ∧
    (countBlobFilesList "yml" emptyPathEntries "").2 ≠
      (findFirstPathOfType emptyPathEntries "yml").getD "" := by
  exact ⟨by decide, by decide, by decide⟩

/-- C5 amended: provided every matching file's `path` is non-empty, the
assembled result uses exactly the first pre-order match — the file count is
the spec's `countFiles`, the content fetch targets
`(findFirstPathOfType entries fileType).getD ""` (so an empty path when no
file matches, and the earlier of two matches otherwise), and `fileContent` is
whatever text that single fetch yields (absent when the upstream returns no
text, as §4.1 specifies for the empty path). -/
theorem firstPath_selection_amended {W : Type} (up : Upstream W)
    (n ft o : String) (resp : TreeResponse) (repo : RepoData)
    (es : List TreeEntry) (hooks : W) (cresp : ContentResponse) (t : Option String)
    (h1 : up.fetchTree n = Except.ok resp) (h2 : resp.repository = some repo)
    (h3 : repo.object = some (some es))
    (h4 : ∀ p ∈ matchPathsList ft es, p ≠ "")
    (h5 : up.fetchWebhooks o n = Except.ok hooks)
    (h6 : up.fetchContent n ((findFirstPathOfType es ft).getD "") = Except.ok cresp)
    (h7 : cresp.repository = some (some t)) :
    fetchSingleRepositoryData up n ft o =
      Except.ok ⟨repo.meta, some (countFiles es), hooks, t⟩ := by
  have hread : readContent cresp = Except.ok t := by
    obtain ⟨rep⟩ := cresp
    simp only at h7
    cases h7
    rfl
  have hana : analyzeTree ft repo.object =
      Except.ok (some (countFiles es), (findFirstPathOfType es ft).getD "") := by
    rw [h3]
    simp only [analyzeTree]
    rw [countBlobFilesList_fst, recordedPath_eq_firstPath ft es h4]
  exact fetchSingleRepositoryData_ok up n ft o resp repo
    (some (countFiles es), (findFirstPathOfType es ft).getD "") hooks cresp t
    h1 h2 hana h5 h6 hread

/-- Witness for the amended C5: on `mockUp` with file type `txt` the first
(and only) match is `src/b.txt` inside the expanded directory, and the
content fetch targets exactly that path. -/
theorem firstPath_selection_witness :
    fetchSingleRepositoryData mockUp "r" "txt" "o" =
      Except.ok ⟨mockMeta "r", some 2, "o|r", some "content:src/b.txt"⟩ :=
  firstPath_selection_amended mockUp "r" "txt" "o"
    ⟨some ⟨mockMeta "r", some (some mockTreeEntries)⟩⟩
    ⟨mockMeta "r", some (some mockTreeEntries)⟩
    mockTreeEntries "o|r" ⟨some (some (some "content:src/b.txt"))⟩
    (some "content:src/b.txt")
    rfl rfl rfl (by decide) rfl rfl rfl

/-- C6: `listRepositories` returns the upstream's fixed page and nothing
more: the empty viewer yields an empty sequence, the length is
`min viewerRepos.length 100` (so more than 100 repositories yield exactly
100 records and never more), and every record carries its node's name, owner
login and disk-usage size, in the page's order. -/
theorem listRepositories_page_bound :
    listRepositories [] = [] ∧
    (∀ viewerRepos : List RepoNode,
      (listRepositories viewerRepos).length = min viewerRepos.length 100) ∧
    (∀ viewerRepos : List RepoNode, 100 < viewerRepos.length →
      (listRepositories viewerRepos).length = 100) ∧
    (∀ viewerRepos : List RepoNode,
      listRepositories viewerRepos =
        (repositoriesPage viewerRepos).map fun d => ⟨d.name, d.ownerLogin, d.diskUsage⟩) := by
  refine ⟨rfl, ?_, ?_, fun _ => rfl⟩
  · intro vr
    simp only [listRepositories, List.length_map, repositoriesPage, List.length_drop]
    omega
  · intro vr h
    simp only [listRepositories, List.length_map, repositoriesPage, List.length_drop]
    omega

/-- Witness for C6: a viewer with 101 repositories gets exactly 100 records. -/
theorem listRepositories_page_witness :
    (listRepositories (List.replicate 101 ⟨"n", 3, "o"⟩)).length = 100 :=
  listRepositories_page_bound.2.2.1 (List.replicate 101 ⟨"n", 3, "o"⟩)
    (by simp)

/-- The fold behind `lastIndexOf` returns the initial accumulator when the character does not
occur. -/
theorem lastIndexOfAux_of_not_mem (c : Char) :
    ∀ (cs : List Char) (i : Nat) (acc : Int), (∀ x ∈ cs, x ≠ c) →
      lastIndexOfAux c cs i acc = acc := by
  intro cs
  induction cs with
  | nil => intro i acc _; rfl
  | cons x xs ih =>
    intro i acc h
    have hx : x ≠ c := h x (List.mem_cons_self _ _)
    rw [lastIndexOfAux]
    rw [if_neg hx]
    exact ih _ _ (fun y hy => h y (List.mem_cons_of_mem _ hy))

/-- C8: for a file name with no dot, `lastIndexOf` is `-1`, the slice starts
at index 0, and the computed extension is the whole name; it equals a
requested file type exactly when the file type is the whole name (in
particular, the empty extension of the empty name matches only the empty
file type). -/
theorem extension_of_dotless_name (name : String)
    (h : ∀ c ∈ name.toList, c ≠ '.') :
    extensionOf name = name ∧
    ∀ fileType : String, (extensionOf name = fileType ↔ fileType = name) := by
  have hli : jsLastIndexOf name '.' = -1 := by
    unfold jsLastIndexOf
    exact lastIndexOfAux_of_not_mem '.' name.toList 0 (-1) h
  have hx : extensionOf name = name := by
    unfold extensionOf jsSliceFrom
    rw [hli]
    rw [show ((-1 : Int) + 1).toNat = 0 from rfl, List.drop_zero]
    rfl
  refine ⟨hx, fun ft => ?_⟩
  rw [hx]
  exact ⟨fun hh => hh.symm, fun hh => hh.symm⟩

/-- Witness for C8: `Makefile` has no dot; its computed extension is
`Makefile` itself, which does not equal the typical file type `yml`. -/
theorem extension_of_dotless_witness :
    extensionOf "Makefile" = "Makefile" ∧
    (extensionOf "Makefile" = "yml" ↔ ("yml" : String) = "Makefile") :=
  ⟨(extension_of_dotless_name "Makefile" (by decide)).1,
   (extension_of_dotless_name "Makefile" (by decide)).2 "yml"⟩

/-- C3: when every per-name assembly chain succeeds, `fetchRepositoriesDetails`
returns exactly one record per input name, in input order — even though the
chains are consumed in fixed index pairs — and for an odd count the final
pair's `undefined` second slot resolves without error and is filtered out
rather than appearing as an entry (the result has exactly as many records as
names, for every parity). -/
theorem fetchRepositoriesDetails_ordered {W : Type} (up : Upstream W)
    (repoNames : List String) (fileType owner : String)
    (f : String → SingleRepoResult W)
    (h : ∀ n ∈ repoNames,
      fetchSingleRepositoryData up n fileType owner = Except.ok (f n)) :
    fetchRepositoriesDetails up repoNames fileType owner =
      Except.ok (repoNames.map fun n => detailsOfResult (f n)) := by
  simp only [fetchRepositoriesDetails]
  have hmap : repoNames.map (fun n => fetchSingleRepositoryData up n fileType owner) =
      (repoNames.map f).map Except.ok := by
    rw [List.map_map]
    exact List.map_congr_left (fun n hn => h n hn)
  rw [hmap, runMultiplePromiseAllInLoop_map_ok]
  simp only [Bind.bind, Except.bind]
  rw [pairChunks_flat_filter, List.map_map]
  rfl

/-- Witness for C3: three names (odd count) yield three records in input
order. -/
theorem fetchRepositoriesDetails_ordered_witness :
    fetchRepositoriesDetails mockUp ["r1", "r2", "r3"] "yml" "o" =
      Except.ok (["r1", "r2", "r3"].map fun n =>
        detailsOfResult ⟨mockMeta n, some 2, "o|" ++ n, some "content:a.yml"⟩) :=
  fetchRepositoriesDetails_ordered mockUp ["r1", "r2", "r3"] "yml" "o"
    (fun n => ⟨mockMeta n, some 2, "o|" ++ n, some "content:a.yml"⟩)
    (fun _ _ => rfl)

/-- C2: when some assembly chain rejects with `e` and every failing chain
carries that same `e` — in particular when exactly one repository fails —
the whole `fetchRepositoriesDetails` call rejects with `e`: no partial list
of records for the other names is returned. -/
theorem fetchRepositoriesDetails_allOrNothing {W : Type} (up : Upstream W)
    (repoNames : List String) (fileType owner : String) (e : JsError)
    (h1 : Except.error e ∈
      repoNames.map (fun n => fetchSingleRepositoryData up n fileType owner))
    (h2 : ∀ e', Except.error e' ∈
      repoNames.map (fun n => fetchSingleRepositoryData up n fileType owner) →
      e' = e) :
    fetchRepositoriesDetails up repoNames fileType owner = Except.error e := by
  simp only [fetchRepositoriesDetails]
  rw [runMultiplePromiseAllInLoop_error e _ h1 h2]
  rfl

/-- Witness for C2: with the middle of three chains failing, the whole call
rejects with that chain's error. -/
theorem fetchRepositoriesDetails_allOrNothing_witness :
    fetchRepositoriesDetails failUp ["a", "bad", "c"] "yml" "o" =
      Except.error (JsError.upstreamError "boom") := by
  have hmap : (["a", "bad", "c"].map fun n =>
        fetchSingleRepositoryData failUp n "yml" "o") =
      [Except.ok ⟨mockMeta "a", some 2, "o|a", some "content:a.yml"⟩,
       Except.error (JsError.upstreamError "boom"),
       Except.ok ⟨mockMeta "c", some 2, "o|c", some "content:a.yml"⟩] := rfl
  refine fetchRepositoriesDetails_allOrNothing failUp ["a", "bad", "c"] "yml" "o"
    (JsError.upstreamError "boom") ?_ ?_
  · rw [hmap]
    simp
  · intro e' he'
    rw [hmap] at he'
    simp at he'
    exact he'

/-- C1: whenever `fetchRepositoriesDetails` succeeds (with tree responses
whose metadata name echoes the requested name, as the upstream query
guarantees), each returned record's `activeWebhooks` is exactly what the
webhooks fetch returns for the **caller-supplied** `owner` and that record's
name — the discovered `owner.login` of the tree response is never consulted,
so the equation holds even for upstreams whose discovered owner differs from
the caller-supplied one. -/
theorem webhooks_use_caller_owner {W : Type} (up : Upstream W)
    (repoNames : List String) (fileType owner : String)
    (res : List (RepositoryDetails W))
    (hok : fetchRepositoriesDetails up repoNames fileType owner = Except.ok res)
    (hname : ∀ n resp repo, up.fetchTree n = Except.ok resp →
      resp.repository = some repo → repo.meta.name = n) :
    res.length = repoNames.length ∧
    ∀ (i : Nat) (r : RepositoryDetails W), res[i]? = some r →
      up.fetchWebhooks owner r.name = Except.ok r.activeWebhooks := by
  simp only [fetchRepositoriesDetails, Bind.bind, Except.bind] at hok
  cases hloop : runMultiplePromiseAllInLoop
      (repoNames.map fun n => fetchSingleRepositoryData up n fileType owner) with
  | error e =>
    rw [hloop] at hok
    exact Except.noConfusion hok
  | ok settled =>
    rw [hloop] at hok
    injection hok with hok
    subst hok
    obtain ⟨vs, hps, hflat⟩ := runMultiplePromiseAllInLoop_ok_inv _ _ hloop
    rw [hflat]
    constructor
    · rw [List.length_map]
      have hl := congrArg List.length hps
      simpa using hl.symm
    · intro i r hr
      simp only [List.getElem?_map] at hr
      cases hv : vs[i]? with
      | none => rw [hv] at hr; simp at hr
      | some v =>
        rw [hv] at hr
        simp only [Option.map_some'] at hr
        cases hr
        have hgi := congrArg (fun l => l[i]?) hps
        simp only [List.getElem?_map, hv] at hgi
        cases hn : repoNames[i]? with
        | none => rw [hn] at hgi; simp at hgi
        | some n =>
          rw [hn] at hgi
          simp only [Option.map_some', Option.some.injEq] at hgi
          obtain ⟨resp, repo, htree, hrep, hmeta, hwh⟩ :=
            fetchSingleRepositoryData_ok_inv up n fileType owner v hgi
          have hnm : repo.meta.name = n := hname n resp repo htree hrep
          simp only [detailsOfResult]
          rw [hmeta, hnm]
          exact hwh

/-- Witness for C1: the caller passes `callerOwner` while every tree response
reports `treeOwner`; the webhooks payload of each record was fetched for
`callerOwner`. -/
theorem webhooks_use_caller_owner_witness :
    wres.length = (["r1", "r2"] : List String).length ∧
    mockUp.fetchWebhooks "callerOwner" "r1" = Except.ok "callerOwner|r1" ∧
    mockUp.fetchWebhooks "callerOwner" "r2" = Except.ok "callerOwner|r2" := by
  have hname : ∀ n resp repo, mockUp.fetchTree n = Except.ok resp →
      resp.repository = some repo → repo.meta.name = n := by
    intro n resp repo h1 h2
    simp only [mockUp] at h1
    injection h1 with h1
    subst h1
    simp only at h2
    injection h2 with h2
    subst h2
    rfl
  have H := webhooks_use_caller_owner mockUp ["r1", "r2"] "yml" "callerOwner"
    wres rfl hname
  exact ⟨H.1,
    H.2 0 ⟨"r1", "public", 7, "treeOwner", some 2, some "content:a.yml",
      "callerOwner|r1"⟩ rfl,
    H.2 1 ⟨"r2", "public", 7, "treeOwner", some 2, some "content:a.yml",
      "callerOwner|r2"⟩ rfl⟩

/-- C7 counterexample: with a null root `object` (the non-`master`-branch
shape the claim names), the assembly chain does **not** fail with a runtime
error — the optional chain `object?.entries.reduce` short-circuits, the call
succeeds, and `numberOfFiles` is simply absent. -/
theorem nullObject_no_runtime_error :
    fetchSingleRepositoryData absentUp "r" "yml" "octo" =
      Except.ok ⟨mockMeta "r", none, "octo|r", none⟩ := rfl

/-- C7 amended: there is indeed no defensive `MalformedDataError` check, but
the failure mode depends on where the field is missing.  A null `repository`
(line 193 dereferences it without `?.`) and a non-null `object` lacking
`entries` (`.reduce` on `undefined`) are runtime `TypeError`s rejecting the
chain; a null `object` is short-circuited by `?.` and the chain succeeds with
`numberOfFiles` absent and the content fetched at the empty path. -/
theorem absent_field_behaviour {W : Type} (up : Upstream W) (n ft o : String)
    (resp : TreeResponse)
    (htree : up.fetchTree n = Except.ok resp) :
    (resp.repository = none →
      fetchSingleRepositoryData up n ft o = Except.error JsError.typeError) ∧
    (∀ repo, resp.repository = some repo → repo.object = some none →
      fetchSingleRepositoryData up n ft o = Except.error JsError.typeError) ∧
    (∀ repo hooks cresp t, resp.repository = some repo → repo.object = none →
      up.fetchWebhooks o n = Except.ok hooks →
      up.fetchContent n "" = Except.ok cresp → cresp.repository = some (some t) →
      fetchSingleRepositoryData up n ft o = Except.ok ⟨repo.meta, none, hooks, t⟩) := by
  refine ⟨?_, ?_, ?_⟩
  · intro h
    unfold fetchSingleRepositoryData
    rw [htree]
    simp only [Bind.bind, Except.bind, h]
  · intro repo h hobj
    unfold fetchSingleRepositoryData
    rw [htree]
    simp only [Bind.bind, Except.bind, h, hobj, analyzeTree]
  · intro repo hooks cresp t h hobj hw hc h7
    have hread : readContent cresp = Except.ok t := by
      obtain ⟨rep⟩ := cresp
      simp only at h7
      cases h7
      rfl
    have hana : analyzeTree ft repo.object = Except.ok (none, "") := by
      rw [hobj]
      rfl
    exact fetchSingleRepositoryData_ok up n ft o resp repo (none, "") hooks cresp t
      htree h hana hw hc hread

/-- Witness for the amended C7: on `absentUp`, a null repository and a
non-null object without entries reject with a `TypeError`, while a null root
object succeeds with `numberOfFiles` absent. -/
theorem absent_field_behaviour_witness :
    fetchSingleRepositoryData absentUp "norepo" "yml" "o" =
      Except.error JsError.typeError ∧
    fetchSingleRepositoryData absentUp "noentries" "yml" "o" =
      Except.error JsError.typeError ∧
    fetchSingleRepositoryData absentUp "r2" "yml" "o" =
      Except.ok ⟨mockMeta "r2", none, "o|r2", none⟩ :=
  ⟨(absent_field_behaviour absentUp "norepo" "yml" "o" ⟨none⟩ rfl).1 rfl,
   (absent_field_behaviour absentUp "noentries" "yml" "o"
      ⟨some ⟨mockMeta "noentries", some none⟩⟩ rfl).2.1
      ⟨mockMeta "noentries", some none⟩ rfl rfl,
   (absent_field_behaviour absentUp "r2" "yml" "o"
      ⟨some ⟨mockMeta "r2", none⟩⟩ rfl).2.2
      ⟨mockMeta "r2", none⟩ "o|r2" ⟨some (some none)⟩ none rfl rfl rfl rfl rfl⟩

end GithubAnalysis
